import Mathlib

/-
Shallow embedding of photutils/datasets/make.py (the dataset-synthesis module).

Numeric values are idealized over an abstract field (a parameter `α`), with the
constant `np.pi` passed explicitly where the source uses it.  Tables are ordered
column lists (astropy tables have distinct, ordered column names); the shared
mutable model object is embedded by explicit passing of its parameter state
(`Params α`), and its continuous evaluation and the oversampling discretizer are
opaque collaborators stored in the `PModel` structure, exactly as the module
treats `model(x, y)` and `astropy.convolution.discretize_model`.  Exceptions are
`Except` values; the `try/finally` of `make_model_sources_image` is embedded by
running the restoration loop on both the normal and the error path.
-/

namespace Photutils

/-- Parameter state of an astropy model object: `getattr`/`setattr` by name. -/
abbrev Params (α : Type) : Type := String → α

/-- The effect of `setattr(model, c, v)` on the parameter state. -/
def setp {α : Type} (ps : Params α) (c : String) (v : α) : Params α :=
  fun n => if n = c then v else ps n

/-- An astropy `Table`: ordered columns, each a name with its list of values. -/
abbrev Table (α : Type) : Type := List (String × List α)

/-- Column names of a table (`table.colnames`). -/
def colnames {α : Type} (t : Table α) : List String := t.map Prod.fst

/-- Whether `c in table.colnames`. -/
def hasCol {α : Type} : Table α → String → Bool
  | [], _ => false
  | col :: rest, c => if col.1 = c then true else hasCol rest c

/-- Values of the column named `c` (first matching column; `[]` when absent). -/
def colvals {α : Type} : Table α → String → List α
  | [], _ => []
  | col :: rest, c => if col.1 = c then col.2 else colvals rest c

/-- Number of rows, `len(table)`: the length of the first column (0 for no columns). -/
def nrows {α : Type} : Table α → Nat
  | [] => 0
  | col :: _ => col.2.length

/-- `source[c]` for row index `i`: entry `i` of column `c`. -/
def tget {α : Type} [Zero α] (t : Table α) (c : String) (i : Nat) : α :=
  (colvals t c).getD i 0

/-- Replace the values of every column named `c` (used when the column exists). -/
def mapReplace {α : Type} : Table α → String → List α → Table α
  | [], _, _ => []
  | col :: rest, c, v => (if col.1 = c then (c, v) else col) :: mapReplace rest c v

/-- `table[c] = v`: replace the column in place when present, else append it. -/
def setCol {α : Type} (t : Table α) (c : String) (v : List α) : Table α :=
  if hasCol t c then mapReplace t c v else t ++ [(c, v)]

/-- `del table[c]`: drop the column named `c`. -/
def delCol {α : Type} : Table α → String → Table α
  | [], _ => []
  | col :: rest, c => if col.1 = c then delCol rest c else col :: delCol rest c

/-- The distinct exception situations raised by the embedded code paths. -/
inductive Err : Type where
  | typeError
  | invalidShape
  | nameError
  | evalError
  | invalidInput
  | unknownParameter
  | missingColumn
deriving DecidableEq

/-- Decidable equality of exception outcomes. -/
instance {ε α : Type} [DecidableEq ε] [DecidableEq α] : DecidableEq (Except ε α) :=
  fun a b =>
    match a, b with
    | Except.ok x, Except.ok y =>
      if h : x = y then isTrue (by rw [h]) else isFalse (fun hh => h (Except.ok.inj hh))
    | Except.ok _, Except.error _ => isFalse (fun hh => Except.noConfusion hh)
    | Except.error _, Except.ok _ => isFalse (fun hh => Except.noConfusion hh)
    | Except.error d, Except.error e =>
      if h : d = e then isTrue (by rw [h]) else isFalse (fun hh => h (Except.error.inj hh))

/-- An astropy model as the renderer consumes it: its declared parameter names
plus its two opaque evaluation collaborators, `model(x, y)` over the index grid
of a shape and `discretize_model` over the shape's bounding box with an
oversampling factor.  Both may raise (returning `Except.error`). -/
structure PModel (α : Type) : Type where
  param_names : List String
  eval : Params α → List Nat → Except Unit (List (List α))
  disc : Params α → List Nat → ℚ → Except Unit (List (List α))

/-- The first argument of `make_model_sources_image`: either a shape tuple or a
pre-allocated 2D (float) image array. -/
inductive ShapeOrBuffer (α : Type) : Type where
  | shape (s : List Nat)
  | buffer (b : List (List α))

/-- Elementwise grid addition (`image += ...`). -/
def gadd {α : Type} [Add α] (a b : List (List α)) : List (List α) :=
  List.zipWith (List.zipWith (· + ·)) a b

/-- `np.zeros((ny, nx), dtype=np.float64)`. -/
def npzeros {α : Type} [Zero α] (ny nx : Nat) : List (List α) :=
  List.replicate ny (List.replicate nx 0)

/-- `params_to_set`: the table columns whose names match model parameter names,
in column order (lines 296-299 of make.py). -/
def params_to_set {α : Type} (mo : PModel α) (t : Table α) : List String :=
  (colnames t).filter (fun c => c ∈ mo.param_names)

/-- The inner `for paramnm in params_to_set: setattr(model, paramnm, source[paramnm])`
for row `i`. -/
def setRow {α : Type} [Zero α] (t : Table α) (cols : List String) (i : Nat)
    (ps : Params α) : Params α :=
  cols.foldl (fun a p => setp a p (tget t p i)) ps

/-- One row's model evaluation: direct `model(x, y)` when `oversample == 1`,
otherwise `discretize_model(..., factor=oversample)`. -/
def rowEval {α : Type} (mo : PModel α) (s : List Nat) (ov : ℚ) (ps : Params α) :
    Except Unit (List (List α)) :=
  if ov = 1 then mo.eval ps s else mo.disc ps s ov

/-- The `for i, source in enumerate(source_table)` loop body of
`make_model_sources_image`, threading the accumulator image, the model
parameter state, and the (initially unbound) loop variable `paramnm`.
Returns the loop outcome together with the state at exit. -/
def renderLoop {α : Type} [Zero α] [Add α] (mo : PModel α) (s : List Nat)
    (t : Table α) (cols : List String) (ov : ℚ) :
    List Nat → List (List α) → Params α → Option String →
      Except Unit (List (List α)) × Params α × Option String
  | [], img, ps, pn => (Except.ok img, ps, pn)
  | i :: rest, img, ps, pn =>
    let ps2 := setRow t cols i ps
    let pn2 := match cols.getLast? with
      | none => pn
      | some q => some q
    match rowEval mo s ov ps2 with
    | Except.error e => (Except.error e, ps2, pn2)
    | Except.ok g => renderLoop mo s t cols ov rest (gadd img g) ps2 pn2

/-- The `finally` block: `for pnm, val in init_params.items(): setattr(model, paramnm, val)`.
Note the source writes the row-loop variable `paramnm` (not `pnm`): when
`init_params` is non-empty and `paramnm` was never bound this raises NameError;
otherwise it repeatedly assigns the single parameter `paramnm`, sweeping through
every saved initial value. -/
def finallyRestore {α : Type} (initp : List (String × α)) (pn : Option String)
    (ps : Params α) : Except Unit (Params α) :=
  match initp with
  | [] => Except.ok ps
  | _ :: _ =>
    match pn with
    | none => Except.error ()
    | some q => Except.ok (initp.foldl (fun a pv => setp a q pv.2) ps)

/-- The body of `make_model_sources_image` after shape handling: build the zero
image, match columns, save initial parameter values, run the row loop under
try/finally, and return the image outcome with the model's final parameter
state (observable by the caller, who shares the model object). -/
def make_model_core {α : Type} [Zero α] [Add α] (mo : PModel α) (s : List Nat)
    (t : Table α) (ov : ℚ) (ps0 : Params α) :
    Except Err (List (List α)) × Params α :=
  let cols := params_to_set mo t
  let initp := cols.map (fun p => (p, ps0 p))
  let st := renderLoop mo s t cols ov (List.range (nrows t))
    (npzeros (s.getD 0 0) (s.getD 1 0)) ps0 none
  match finallyRestore initp st.2.2 st.2.1 with
  | Except.error _ => (Except.error Err.nameError, st.2.1)
  | Except.ok ps2 =>
    match st.1 with
    | Except.error _ => (Except.error Err.evalError, ps2)
    | Except.ok img => (Except.ok img, ps2)

/-- `make_model_sources_image(image_shape, model, source_table, oversample)`.
`np.zeros(image_shape)` (line 293) raises TypeError when handed a 2D float
array instead of a shape; `y, x = np.indices(image_shape)` (line 294) raises
ValueError (wrong grid dimensionality) unless the shape has exactly two axes. -/
def make_model_sources_image {α : Type} [Zero α] [Add α] (mo : PModel α)
    (sob : ShapeOrBuffer α) (t : Table α) (ov : ℚ) (ps0 : Params α) :
    Except Err (List (List α)) × Params α :=
  match sob with
  | ShapeOrBuffer.buffer _ => (Except.error Err.typeError, ps0)
  | ShapeOrBuffer.shape s =>
    if s.length = 2 then make_model_core mo s t ov ps0
    else (Except.error Err.invalidShape, ps0)

/-- `apply_poisson_noise(data, random_state)`: reject any negative pixel, else
draw one Poisson sample per pixel with that pixel's value as the expectation
(the pseudo-random sampler is the opaque collaborator `poisson`). -/
def apply_poisson_noise (poisson : ℚ → Nat) (data : List (List ℚ)) :
    Except Err (List (List Nat)) :=
  if data.any (fun row => row.any (fun v => decide (v < 0))) then
    Except.error Err.invalidInput
  else
    Except.ok (data.map (fun row => row.map poisson))

/-- The `for pnm, (lower, upper) in param_ranges.items()` loop of
`make_random_models_table`: raise on the first name absent from the model's
parameter names, else draw the column and continue. -/
def mrmt_loop {α : Type} (uniform : α → α → Nat → List α) (pnames : List String)
    (n : Nat) : List (String × α × α) → Table α → Except Err (Table α)
  | [], acc => Except.ok acc
  | (pnm, lo, hi) :: rest, acc =>
    if pnm ∈ pnames then
      mrmt_loop uniform pnames n rest (setCol acc pnm (uniform lo hi n))
    else Except.error Err.unknownParameter

/-- `make_random_models_table(model, n_sources, param_ranges, random_state)`,
with `prng.uniform` as the opaque draw collaborator and `param_ranges` an
insertion-ordered mapping. -/
def make_random_models_table {α : Type} (uniform : α → α → Nat → List α)
    (pnames : List String) (n : Nat) (param_ranges : List (String × α × α)) :
    Except Err (Table α) :=
  mrmt_loop uniform pnames n param_ranges []

/-- The per-row flux normalization of `make_gaussian_sources_image` (lines
240-242): `amplitude = flux / (2 * np.pi * x_stddev * y_stddev)`, elementwise
over the columns, each row using its own stddevs. -/
def fluxToAmp {α : Type} [Field α] (pi : α) (t : Table α) : List α :=
  (List.range (colvals t "flux").length).map
    (fun i => tget t "flux" i / (2 * pi * tget t "x_stddev" i * tget t "y_stddev" i))

/-- `Gaussian2D.param_names` in astropy's declared order. -/
def gaussian2D_param_names : List String :=
  ["amplitude", "x_mean", "y_mean", "x_stddev", "y_stddev", "theta"]

/-- Initial parameter values of `Gaussian2D(x_stddev=1, y_stddev=1)`:
amplitude defaults to 1, the means and theta to 0. -/
def gaussian2D_init {α : Type} [Field α] : Params α :=
  fun n =>
    if n = "amplitude" then 1
    else if n = "x_stddev" then 1
    else if n = "y_stddev" then 1
    else 0

/-- Lines 237-247 of make.py: when a `flux` column exists, work on a copy,
set/overwrite `amplitude` with the converted values and delete `flux`; else
require an `amplitude` column or raise ValueError (missing column). -/
def normalizeGaussTable {α : Type} [Field α] (pi : α) (t : Table α) :
    Except Err (Table α) :=
  if hasCol t "flux" then
    Except.ok (delCol (setCol t "amplitude" (fluxToAmp pi t)) "flux")
  else if hasCol t "amplitude" then Except.ok t
  else Except.error Err.missingColumn

/-- `make_gaussian_sources_image(image_shape, source_table, oversample)`.
The second component of the result is the caller's table after the call: the
normalization happens on a private copy (`source_table = source_table.copy()`),
so the caller's table comes back unchanged.  The Gaussian2D evaluation and
discretization collaborators are passed in opaquely. -/
def make_gaussian_sources_image {α : Type} [Field α] (pi : α)
    (gauss_eval : Params α → List Nat → Except Unit (List (List α)))
    (gauss_disc : Params α → List Nat → ℚ → Except Unit (List (List α)))
    (shape : List Nat) (t : Table α) (ov : ℚ) :
    Except Err (List (List α)) × Table α :=
  match normalizeGaussTable pi t with
  | Except.error e => (Except.error e, t)
  | Except.ok t2 =>
    ((make_model_sources_image ⟨gaussian2D_param_names, gauss_eval, gauss_disc⟩
        (ShapeOrBuffer.shape shape) t2 ov gaussian2D_init).1, t)

/-- A two-parameter model whose evaluation always succeeds with a 1x1 zero
grid, used as a concrete rendering input. -/
def demoModel : PModel ℤ where
  param_names := ["a", "b"]
  eval := fun _ _ => Except.ok [[0]]
  disc := fun _ _ _ => Except.ok [[0]]

/-- Concrete pre-call parameter state: a = 1, b = 2. -/
def demoInit : Params ℤ :=
  fun n => if n = "a" then 1 else if n = "b" then 2 else 0

/-- Concrete one-row source table: a = 5, b = 6. -/
def demoTable : Table ℤ := [("a", [5]), ("b", [6])]

/-- A concrete 2D float image buffer (non-integer pixel values). -/
def demoBuffer : List (List ℚ) := [[3 / 2, 2], [3, 4]]

/-- A two-parameter model over the buffer's value type. -/
def bufModel : PModel ℚ where
  param_names := ["a", "b"]
  eval := fun _ _ => Except.ok [[0]]
  disc := fun _ _ _ => Except.ok [[0]]

/-- A model whose evaluation always succeeds with a 1x1 grid of ones. -/
def onesModel : PModel ℤ where
  param_names := ["a", "b"]
  eval := fun _ _ => Except.ok [[1]]
  disc := fun _ _ _ => Except.ok [[1]]

/-- A table with one matched column and zero rows. -/
def emptyColTable : Table ℤ := [("a", [])]

/-- A concrete Gaussian source table carrying both flux and amplitude. -/
def gaussDemoTable : Table ℚ :=
  [("flux", [44]), ("x_stddev", [1]), ("y_stddev", [1]), ("amplitude", [99])]

/-- Reading a parameter after one `setattr`. -/
theorem setp_apply {α : Type} (ps : Params α) (c : String) (v : α) (q : String) :
    setp ps c v q = if q = c then v else ps q := rfl

/-- Reading a parameter after one row's inner `setattr` loop: matched names
carry the row's table value, the rest are untouched. -/
theorem setRow_apply {α : Type} [Zero α] (t : Table α) (cols : List String) (i : Nat)
    (ps : Params α) (q : String) :
    setRow t cols i ps q = if q ∈ cols then tget t q i else ps q := by
  induction cols generalizing ps with
  | nil => simp [setRow]
  | cons c cs ih =>
    have hstep : setRow t (c :: cs) i ps = setRow t cs i (setp ps c (tget t c i)) := rfl
    rw [hstep, ih]
    by_cases hq : q ∈ cs
    · simp [hq]
    · by_cases hc : q = c
      · subst hc
        simp [hq, setp]
      · simp [hq, hc, setp]

/-- The default value of `getLastD` is irrelevant on a nonempty list. -/
theorem getLastD_ne_nil {α : Type} (l : List α) (h : l ≠ []) (d1 d2 : α) :
    l.getLastD d1 = l.getLastD d2 := by
  cases l with
  | nil => exact absurd rfl h
  | cons x xs => simp [List.getLastD_eq_getLast?, List.getLast?_cons]

/-- One unfolding of the row loop. -/
theorem renderLoop_cons {α : Type} [Zero α] [Add α] (mo : PModel α) (s : List Nat)
    (t : Table α) (cols : List String) (ov : ℚ) (i : Nat) (rest : List Nat)
    (img : List (List α)) (ps : Params α) (pn : Option String) :
    renderLoop mo s t cols ov (i :: rest) img ps pn =
      match rowEval mo s ov (setRow t cols i ps) with
      | Except.error e => (Except.error e, setRow t cols i ps,
          match cols.getLast? with | none => pn | some q => some q)
      | Except.ok g => renderLoop mo s t cols ov rest (gadd img g) (setRow t cols i ps)
          (match cols.getLast? with | none => pn | some q => some q) := rfl

/-- The row loop when the current row's evaluation raises. -/
theorem renderLoop_cons_err {α : Type} [Zero α] [Add α] (mo : PModel α) (s : List Nat)
    (t : Table α) (cols : List String) (ov : ℚ) (i : Nat) (rest : List Nat)
    (img : List (List α)) (ps : Params α) (pn : Option String) (e : Unit)
    (hev : rowEval mo s ov (setRow t cols i ps) = Except.error e) :
    renderLoop mo s t cols ov (i :: rest) img ps pn =
      (Except.error e, setRow t cols i ps,
        match cols.getLast? with | none => pn | some q => some q) := by
  rw [renderLoop_cons, hev]

/-- The row loop when the current row's evaluation succeeds. -/
theorem renderLoop_cons_ok {α : Type} [Zero α] [Add α] (mo : PModel α) (s : List Nat)
    (t : Table α) (cols : List String) (ov : ℚ) (i : Nat) (rest : List Nat)
    (img : List (List α)) (ps : Params α) (pn : Option String) (g : List (List α))
    (hev : rowEval mo s ov (setRow t cols i ps) = Except.ok g) :
    renderLoop mo s t cols ov (i :: rest) img ps pn =
      renderLoop mo s t cols ov rest (gadd img g) (setRow t cols i ps)
        (match cols.getLast? with | none => pn | some q => some q) := by
  rw [renderLoop_cons, hev]

/-- When the row loop completes without an exception, the model's parameter
state at exit is that of the last processed row on matched names, and the
starting state elsewhere. -/
theorem renderLoop_ok_params {α : Type} [Zero α] [Add α] (mo : PModel α) (s : List Nat)
    (t : Table α) (cols : List String) (ov : ℚ) (is : List Nat) :
    ∀ (img : List (List α)) (ps : Params α) (pn : Option String) (q : String),
    (renderLoop mo s t cols ov is img ps pn).1.isOk = true →
    (renderLoop mo s t cols ov is img ps pn).2.1 q =
      if q ∈ cols ∧ is ≠ [] then tget t q (is.getLastD 0) else ps q := by
  induction is with
  | nil =>
    intro img ps pn q _
    simp [renderLoop]
  | cons i rest ih =>
    intro img ps pn q h
    cases hev : rowEval mo s ov (setRow t cols i ps) with
    | error e =>
      rw [renderLoop_cons_err mo s t cols ov i rest img ps pn e hev] at h
      simp [Except.isOk, Except.toBool] at h
    | ok g =>
      rw [renderLoop_cons_ok mo s t cols ov i rest img ps pn g hev] at h ⊢
      rw [ih _ _ _ q h]
      cases rest with
      | nil => simp [setRow_apply, List.getLastD_eq_getLast?, List.getLast?_cons]
      | cons j rs =>
        by_cases hq : q ∈ cols
        · simp [hq, List.getLastD_eq_getLast?, List.getLast?_cons]
        · simp [hq, setRow_apply]

/-- When the row loop ran at least one row without an exception and at least
one column matched, the leaked loop variable `paramnm` holds the last matched
column name at exit. -/
theorem renderLoop_ok_pn {α : Type} [Zero α] [Add α] (mo : PModel α) (s : List Nat)
    (t : Table α) (c0 : String) (cs : List String) (ov : ℚ) (is : List Nat) :
    ∀ (img : List (List α)) (ps : Params α) (pn : Option String),
    is ≠ [] →
    (renderLoop mo s t (c0 :: cs) ov is img ps pn).1.isOk = true →
    (renderLoop mo s t (c0 :: cs) ov is img ps pn).2.2 = some (cs.getLastD c0) := by
  have hlast : (c0 :: cs).getLast? = some (cs.getLastD c0) := by
    rw [List.getLast?_cons, List.getLastD_eq_getLast?]
  induction is with
  | nil =>
    intro img ps pn h _
    exact absurd rfl h
  | cons i rest ih =>
    intro img ps pn _ h
    cases hev : rowEval mo s ov (setRow t (c0 :: cs) i ps) with
    | error e =>
      rw [renderLoop_cons_err mo s t (c0 :: cs) ov i rest img ps pn e hev] at h
      simp [Except.isOk, Except.toBool] at h
    | ok g =>
      rw [renderLoop_cons_ok mo s t (c0 :: cs) ov i rest img ps pn g hev] at h ⊢
      cases rest with
      | nil =>
        rw [hlast]
        simp [renderLoop]
      | cons j rs =>
        exact ih _ _ _ (by simp) h

/-- Reading a parameter after the defective `finally` loop body: every write
targets the single name `q`, so the final value at `q` is the last saved value
and every other name is untouched. -/
theorem foldl_setp_apply {α : Type} (q : String) :
    ∀ (xs : List (String × α)) (x : String × α) (ps : Params α) (r : String),
    ((x :: xs).foldl (fun a pv => setp a q pv.2) ps) r =
      if r = q then (xs.getLastD x).2 else ps r := by
  intro xs
  induction xs with
  | nil =>
    intro x ps r
    show setp ps q x.2 r = _
    rw [setp_apply]
    simp
  | cons y ys ih =>
    intro x ps r
    show ((y :: ys).foldl _ (setp ps q x.2)) r = _
    rw [ih y (setp ps q x.2) r]
    by_cases hr : r = q
    · simp [hr, List.getLastD_eq_getLast?, List.getLast?_cons]
    · simp [hr, setp_apply]

/-- `getLastD` commutes with `map` when the default is in the image. -/
theorem getLastD_map_img {α β : Type} (f : α → β) :
    ∀ (l : List α) (d : α), (l.map f).getLastD (f d) = f (l.getLastD d) := by
  intro l
  induction l with
  | nil => intro d; rfl
  | cons x xs ih =>
    intro d
    simp only [List.map_cons, List.getLastD_cons]
    exact ih x

/-- With a two-axis shape, `make_model_sources_image` runs its core body. -/
theorem make_model_shape2 {α : Type} [Zero α] [Add α] (mo : PModel α) (s : List Nat)
    (t : Table α) (ov : ℚ) (ps0 : Params α) (hs : s.length = 2) :
    make_model_sources_image mo (ShapeOrBuffer.shape s) t ov ps0
      = make_model_core mo s t ov ps0 := by
  simp [make_model_sources_image, hs]

/-- Characterization of the model's parameter state after a successful call
with at least one matched column and at least one row: writing with the leaked
`paramnm` restores only the last matched parameter (to its own saved initial
value, the last entry of `init_params`); every other matched parameter keeps
the last row's table value; unmatched parameters keep their initial values. -/
theorem make_model_core_final_params {α : Type} [Zero α] [Add α] (mo : PModel α)
    (s : List Nat) (t : Table α) (ov : ℚ) (ps0 : Params α) (c0 : String)
    (cs : List String) (m : Nat)
    (hc : params_to_set mo t = c0 :: cs) (hm : nrows t = m + 1)
    (hok : (make_model_core mo s t ov ps0).1.isOk = true) (r : String) :
    (make_model_core mo s t ov ps0).2 r =
      if r = cs.getLastD c0 then ps0 (cs.getLastD c0)
      else if r ∈ c0 :: cs then tget t r m else ps0 r := by
  simp only [make_model_core, hc, hm] at hok ⊢
  set RL := renderLoop mo s t (c0 :: cs) ov (List.range (m + 1))
    (npzeros (s.getD 0 0) (s.getD 1 0)) ps0 none with hRL
  cases hfin : finallyRestore ((c0 :: cs).map fun p => (p, ps0 p)) RL.2.2 RL.2.1 with
  | error e =>
    rw [hfin] at hok
    exact Bool.noConfusion hok
  | ok ps2 =>
    rw [hfin] at hok
    cases h1 : RL.1 with
    | error e =>
      rw [h1] at hok
      exact Bool.noConfusion hok
    | ok img =>
      have hok1 : RL.1.isOk = true := by rw [h1]; rfl
      have hrange : (List.range (m + 1)) ≠ [] := by simp [List.range_eq_nil]
      have hpn : RL.2.2 = some (cs.getLastD c0) :=
        renderLoop_ok_pn mo s t c0 cs ov (List.range (m + 1)) _ _ _ hrange hok1
      have hlastr : ((List.range (m + 1)).getLast?).getD 0 = m := by
        rw [List.range_succ]
        simp [List.getLast?_concat]
      have hps : ∀ q, RL.2.1 q = if q ∈ c0 :: cs then tget t q m else ps0 q := by
        intro q
        rw [renderLoop_ok_params mo s t (c0 :: cs) ov (List.range (m + 1)) _ _ _ q hok1]
        simp [hrange, hlastr]
      rw [hpn] at hfin
      have hmap : ((c0 :: cs).map fun p => (p, ps0 p))
          = (c0, ps0 c0) :: (cs.map fun p => (p, ps0 p)) := rfl
      rw [hmap] at hfin
      simp only [finallyRestore, Except.ok.injEq] at hfin
      have hps2 : ps2 r = if r = cs.getLastD c0
          then ((cs.map fun p => (p, ps0 p)).getLastD (c0, ps0 c0)).2
          else RL.2.1 r := by
        rw [← hfin]
        exact foldl_setp_apply (cs.getLastD c0) (cs.map fun p => (p, ps0 p))
          (c0, ps0 c0) RL.2.1 r
      have hgl : ((cs.map fun p => (p, ps0 p)).getLastD (c0, ps0 c0)).2
          = ps0 (cs.getLastD c0) := by
        rw [show ((c0, ps0 c0) : String × α) = (fun p => (p, ps0 p)) c0 from rfl,
          getLastD_map_img (fun p => (p, ps0 p)) cs c0]
      show ps2 r = if r = cs.getLastD c0 then ps0 (cs.getLastD c0)
        else if r ∈ c0 :: cs then tget t r m else ps0 r
      rw [hps2, hgl]
      by_cases hr : r = cs.getLastD c0
      · simp [hr]
      · rw [if_neg hr, if_neg hr, hps r]

/-- Claim C1, evaluated against the code at a failing input: a successful
`make_model_sources_image` call with two matched parameter columns (pre-call
a = 1, b = 2; one row with a = 5, b = 6) returns with parameter a still at the
row value 5, not restored to 1 (only b, the last matched parameter, is
restored).  The model is not returned in its original state, contradicting the
guaranteed-restoration contract: the `finally` loop writes `paramnm` instead
of `pnm`. -/
theorem c1_restore_defect :
    ((make_model_sources_image demoModel (ShapeOrBuffer.shape [1, 1]) demoTable 1
        demoInit).1.isOk = true)
    ∧ (make_model_sources_image demoModel (ShapeOrBuffer.shape [1, 1]) demoTable 1
        demoInit).2 "a" = 5
    ∧ demoInit "a" = 1
    ∧ (make_model_sources_image demoModel (ShapeOrBuffer.shape [1, 1]) demoTable 1
        demoInit).2 "b" = 2 := by
  decide

/-- Claim C2, counterexample: it is false that after the call every captured
parameter equals the pre-call value of the last processed parameter name
(here `demoInit "b" = 2`): the captured parameter a ends at the row value 5. -/
theorem c2_counterexample :
    "a" ∈ params_to_set demoModel demoTable
    ∧ ¬ ((make_model_sources_image demoModel (ShapeOrBuffer.shape [1, 1]) demoTable 1
          demoInit).2 "a"
        = demoInit ((params_to_set demoModel demoTable).getLastD "")) := by
  decide

/-- Claim C2 (amended): with at least one row and at least two matched
columns, after a successful call the restoration loop has written only the
last matched parameter name, ending at that parameter's own saved initial
value; every other matched parameter keeps the last row's table value, and
unmatched parameters keep their initial values. -/
theorem c2_amended_restoration {α : Type} [Zero α] [Add α] (mo : PModel α)
    (s : List Nat) (t : Table α) (ov : ℚ) (ps0 : Params α) (c0 : String)
    (cs : List String) (m : Nat)
    (hs : s.length = 2) (hc : params_to_set mo t = c0 :: cs) (_hcs : cs ≠ [])
    (hm : nrows t = m + 1)
    (hok : (make_model_sources_image mo (ShapeOrBuffer.shape s) t ov ps0).1.isOk = true) :
    (make_model_sources_image mo (ShapeOrBuffer.shape s) t ov ps0).2 (cs.getLastD c0)
        = ps0 (cs.getLastD c0)
    ∧ (∀ p, p ∈ c0 :: cs → p ≠ cs.getLastD c0 →
        (make_model_sources_image mo (ShapeOrBuffer.shape s) t ov ps0).2 p = tget t p m)
    ∧ (∀ p, p ∉ c0 :: cs → p ≠ cs.getLastD c0 →
        (make_model_sources_image mo (ShapeOrBuffer.shape s) t ov ps0).2 p = ps0 p) := by
  rw [make_model_shape2 mo s t ov ps0 hs] at hok ⊢
  refine ⟨?_, ?_, ?_⟩
  · rw [make_model_core_final_params mo s t ov ps0 c0 cs m hc hm hok (cs.getLastD c0)]
    simp
  · intro p hp hne
    rw [make_model_core_final_params mo s t ov ps0 c0 cs m hc hm hok p,
      if_neg hne, if_pos hp]
  · intro p hp hne
    rw [make_model_core_final_params mo s t ov ps0 c0 cs m hc hm hok p,
      if_neg hne, if_neg hp]

/-- Claim C2 witness: the amended statement instantiated at the concrete
demo call. -/
theorem c2_witness :
    (([1, 1] : List Nat).length = 2
      ∧ params_to_set demoModel demoTable = ["a", "b"]
      ∧ (["b"] : List String) ≠ []
      ∧ nrows demoTable = 0 + 1
      ∧ (make_model_sources_image demoModel (ShapeOrBuffer.shape [1, 1]) demoTable 1
          demoInit).1.isOk = true)
    ∧ (make_model_sources_image demoModel (ShapeOrBuffer.shape [1, 1]) demoTable 1
        demoInit).2 "b" = demoInit "b"
    ∧ (make_model_sources_image demoModel (ShapeOrBuffer.shape [1, 1]) demoTable 1
        demoInit).2 "zz" = demoInit "zz" := by
  have h := c2_amended_restoration demoModel [1, 1] demoTable 1 demoInit "a" ["b"] 0
    rfl (by decide) (by decide) rfl (by decide)
  exact ⟨⟨rfl, by decide, by decide, rfl, by decide⟩, h.1,
    h.2.2 "zz" (by decide) (by decide)⟩

/-- Claim C3: with at least one row and at least two matched columns, after a
successful call the last matched parameter (in column-matching order) equals
its own pre-call value, while every other matched parameter equals the value
from the table's last row. -/
theorem c3_last_param_only_restored {α : Type} [Zero α] [Add α] (mo : PModel α)
    (s : List Nat) (t : Table α) (ov : ℚ) (ps0 : Params α) (c0 : String)
    (cs : List String) (m : Nat)
    (hs : s.length = 2) (hc : params_to_set mo t = c0 :: cs) (_hcs : cs ≠ [])
    (hm : nrows t = m + 1)
    (hok : (make_model_sources_image mo (ShapeOrBuffer.shape s) t ov ps0).1.isOk = true) :
    (make_model_sources_image mo (ShapeOrBuffer.shape s) t ov ps0).2 (cs.getLastD c0)
        = ps0 (cs.getLastD c0)
    ∧ ∀ p, p ∈ c0 :: cs → p ≠ cs.getLastD c0 →
        (make_model_sources_image mo (ShapeOrBuffer.shape s) t ov ps0).2 p = tget t p m := by
  rw [make_model_shape2 mo s t ov ps0 hs] at hok ⊢
  refine ⟨?_, ?_⟩
  · rw [make_model_core_final_params mo s t ov ps0 c0 cs m hc hm hok (cs.getLastD c0)]
    simp
  · intro p hp hne
    rw [make_model_core_final_params mo s t ov ps0 c0 cs m hc hm hok p,
      if_neg hne, if_pos hp]

/-- Claim C3 witness: at the demo call, parameter b (last matched) comes back
as its pre-call value 2 while parameter a holds the last row's value 5. -/
theorem c3_witness :
    (([1, 1] : List Nat).length = 2
      ∧ params_to_set demoModel demoTable = ["a", "b"]
      ∧ (["b"] : List String) ≠ []
      ∧ nrows demoTable = 0 + 1
      ∧ (make_model_sources_image demoModel (ShapeOrBuffer.shape [1, 1]) demoTable 1
          demoInit).1.isOk = true)
    ∧ (make_model_sources_image demoModel (ShapeOrBuffer.shape [1, 1]) demoTable 1
        demoInit).2 "b" = demoInit "b"
    ∧ (make_model_sources_image demoModel (ShapeOrBuffer.shape [1, 1]) demoTable 1
        demoInit).2 "a" = tget demoTable "a" 0 := by
  have h := c3_last_param_only_restored demoModel [1, 1] demoTable 1 demoInit "a" ["b"] 0
    rfl (by decide) (by decide) rfl (by decide)
  exact ⟨⟨rfl, by decide, by decide, rfl, by decide⟩, h.1,
    h.2 "a" (by decide) (by decide)⟩

/-- Claim C4, evaluated against the code at a failing input: handed a
pre-allocated 2D float buffer instead of a shape, the call fails at
`np.zeros(image_shape)` with a TypeError; the sources are never added into
the caller's buffer, contradicting the in-place accumulation promised by the
function's own docstring. -/
theorem c4_buffer_rejected :
    make_model_sources_image bufModel (ShapeOrBuffer.buffer demoBuffer)
        ([] : Table ℚ) 1 (fun _ => 0)
      = (Except.error Err.typeError, fun _ => 0) := rfl

/-- Claim C5: for every image shape that is not 2-dimensional the call fails
with the wrong-dimensionality (InvalidShape) error, with the model's
collaborators (evaluation and discretization) quantified arbitrarily — the
failure is the function's own, not propagated from a collaborator. -/
theorem c5_invalid_shape {α : Type} [Zero α] [Add α] (mo : PModel α) (s : List Nat)
    (t : Table α) (ov : ℚ) (ps0 : Params α) (hs : s.length ≠ 2) :
    make_model_sources_image mo (ShapeOrBuffer.shape s) t ov ps0
      = (Except.error Err.invalidShape, ps0) := by
  simp [make_model_sources_image, hs]

/-- Claim C5 witness: a 1-tuple shape fails with the InvalidShape error. -/
theorem c5_witness :
    (([3] : List Nat).length ≠ 2)
    ∧ make_model_sources_image demoModel (ShapeOrBuffer.shape [3]) demoTable 1 demoInit
        = (Except.error Err.invalidShape, demoInit) :=
  ⟨by decide, c5_invalid_shape demoModel [3] demoTable 1 demoInit (by decide)⟩

/-- Claim C8: `apply_poisson_noise` fails with InvalidInput exactly when some
pixel is negative, and on non-negative input returns one Poisson draw per
pixel with that pixel's value as the expectation. -/
theorem c8_poisson_spec (poisson : ℚ → Nat) (data : List (List ℚ)) :
    ((apply_poisson_noise poisson data = Except.error Err.invalidInput)
        ↔ ∃ row ∈ data, ∃ v ∈ row, v < 0)
    ∧ ((∀ row ∈ data, ∀ v ∈ row, 0 ≤ v) →
        apply_poisson_noise poisson data
          = Except.ok (data.map (fun row => row.map poisson))) := by
  have hcond : data.any (fun row => row.any (fun v => decide (v < 0))) = true
      ↔ ∃ row ∈ data, ∃ v ∈ row, v < 0 := by
    simp [List.any_eq_true]
  by_cases h : data.any (fun row => row.any (fun v => decide (v < 0))) = true
  · have herr : apply_poisson_noise poisson data = Except.error Err.invalidInput := by
      unfold apply_poisson_noise
      rw [if_pos h]
    have hex : ∃ row ∈ data, ∃ v ∈ row, v < 0 := hcond.mp h
    refine ⟨by simp [herr, hex], ?_⟩
    intro hnn
    exfalso
    obtain ⟨row, hrow, v, hv, hvlt⟩ := hex
    exact absurd (hnn row hrow v hv) (not_le.mpr hvlt)
  · have hko : apply_poisson_noise poisson data
        = Except.ok (data.map (fun row => row.map poisson)) := by
      unfold apply_poisson_noise
      rw [if_neg h]
    have hnex : ¬ ∃ row ∈ data, ∃ v ∈ row, v < 0 := fun hex => h (hcond.mpr hex)
    refine ⟨?_, fun _ => hko⟩
    rw [hko]
    simp [hnex]

/-- Claim C8 witness: an all-zero input is accepted and sampled per pixel. -/
theorem c8_witness :
    (∀ row ∈ ([[0, 0], [0, 0]] : List (List ℚ)), ∀ v ∈ row, 0 ≤ v)
    ∧ apply_poisson_noise (fun _ => 0) [[0, 0], [0, 0]]
        = Except.ok [[0, 0], [0, 0]] := by
  refine ⟨by decide, ?_⟩
  exact (c8_poisson_spec (fun _ => 0) [[0, 0], [0, 0]]).2 (by decide)

/-- Claim C9: when some requested parameter name is absent from the model's
declared parameter names, `make_random_models_table` fails with the
UnknownParameter error and no table is returned. -/
theorem c9_unknown_parameter {α : Type} (uniform : α → α → Nat → List α)
    (pnames : List String) (n : Nat) (pr : List (String × α × α))
    (h : ∃ x ∈ pr, x.1 ∉ pnames) :
    make_random_models_table uniform pnames n pr
      = Except.error Err.unknownParameter := by
  unfold make_random_models_table
  suffices hgen : ∀ (pr2 : List (String × α × α)), (∃ x ∈ pr2, x.1 ∉ pnames) →
      ∀ acc, mrmt_loop uniform pnames n pr2 acc = Except.error Err.unknownParameter by
    exact hgen pr h []
  intro pr2
  induction pr2 with
  | nil =>
    intro h2 acc
    obtain ⟨x, hx, _⟩ := h2
    exact absurd hx (List.not_mem_nil x)
  | cons y rest ih =>
    intro h2 acc
    obtain ⟨p, lo, hi⟩ := y
    show (if p ∈ pnames then
        mrmt_loop uniform pnames n rest (setCol acc p (uniform lo hi n))
      else Except.error Err.unknownParameter) = Except.error Err.unknownParameter
    by_cases hy : p ∈ pnames
    · rw [if_pos hy]
      apply ih
      obtain ⟨x, hx, hxn⟩ := h2
      rcases List.mem_cons.mp hx with hhead | htail
      · subst hhead
        exact absurd hy hxn
      · exact ⟨x, htail, hxn⟩
    · rw [if_neg hy]

/-- Claim C9 witness: requesting the unknown name zz fails. -/
theorem c9_witness :
    (∃ x ∈ [(("zz", 0, 1) : String × ℚ × ℚ)], x.1 ∉ ["a"])
    ∧ make_random_models_table (fun _ _ _ => ([] : List ℚ)) ["a"] 3 [("zz", 0, 1)]
        = Except.error Err.unknownParameter := by
  refine ⟨?_, c9_unknown_parameter (fun _ _ _ => ([] : List ℚ)) ["a"] 3
    [("zz", 0, 1)] ?_⟩ <;> decide

/-- Claim C10: with at least one matched parameter column and zero rows, the
row loop never binds `paramnm`, so the `finally` loop raises NameError and the
call propagates it instead of returning the zero grid. -/
theorem c10_zero_rows_name_error {α : Type} [Zero α] [Add α] (mo : PModel α)
    (s : List Nat) (t : Table α) (ov : ℚ) (ps0 : Params α)
    (hs : s.length = 2) (hc : params_to_set mo t ≠ []) (hr : nrows t = 0) :
    make_model_sources_image mo (ShapeOrBuffer.shape s) t ov ps0
      = (Except.error Err.nameError, ps0) := by
  rw [make_model_shape2 mo s t ov ps0 hs]
  obtain ⟨c, cs, hcc⟩ := List.exists_cons_of_ne_nil hc
  simp only [make_model_core, hcc, hr]
  rfl

/-- Claim C10 witness: a table whose single matched column has no entries
makes the call fail with NameError. -/
theorem c10_witness :
    (([2, 2] : List Nat).length = 2
      ∧ params_to_set demoModel emptyColTable ≠ []
      ∧ nrows emptyColTable = 0)
    ∧ make_model_sources_image demoModel (ShapeOrBuffer.shape [2, 2]) emptyColTable 1
        demoInit
      = (Except.error Err.nameError, demoInit) :=
  ⟨⟨rfl, by decide, rfl⟩,
    c10_zero_rows_name_error demoModel [2, 2] emptyColTable 1 demoInit rfl
      (by decide) rfl⟩

/-- Appending a differently-named column does not change a column lookup. -/
theorem colvals_append_ne {α : Type} (t : Table α) (c : String) (vals : List α)
    (p : String) (hp : p ≠ c) :
    colvals (t ++ [(c, vals)]) p = colvals t p := by
  induction t with
  | nil =>
    simp only [List.nil_append, colvals]
    rw [if_neg (fun hh => hp hh.symm)]
  | cons col rest ih =>
    simp only [List.cons_append, colvals, List.append_eq]
    rw [ih]

/-- Appending a column whose name matches no model parameter leaves the
matched-column list unchanged. -/
theorem params_to_set_append_ne {α : Type} (mo : PModel α) (t : Table α) (c : String)
    (vals : List α) (hcm : c ∉ mo.param_names) :
    params_to_set mo (t ++ [(c, vals)]) = params_to_set mo t := by
  simp [params_to_set, colnames, List.filter_append, hcm]

/-- The row loop result depends on the table only through the matched
columns' values. -/
theorem renderLoop_congr_table {α : Type} [Zero α] [Add α] (mo : PModel α)
    (s : List Nat) (t t2 : Table α) (cols : List String) (ov : ℚ)
    (ht : ∀ p ∈ cols, ∀ i, tget t2 p i = tget t p i) :
    ∀ (is : List Nat) (img : List (List α)) (ps : Params α) (pn : Option String),
    renderLoop mo s t2 cols ov is img ps pn = renderLoop mo s t cols ov is img ps pn := by
  intro is
  induction is with
  | nil => intro img ps pn; rfl
  | cons i rest ih =>
    intro img ps pn
    have hsr : setRow t2 cols i ps = setRow t cols i ps := by
      funext q
      rw [setRow_apply, setRow_apply]
      by_cases hq : q ∈ cols
      · simp [hq, ht q hq i]
      · simp [hq]
    rw [renderLoop_cons, renderLoop_cons, hsr]
    cases hev : rowEval mo s ov (setRow t cols i ps) with
    | error e => rfl
    | ok g => exact ih _ _ _

/-- Claim C7, counterexample: against a table with no columns, adding an
unrecognized column does change the rendered image — the new column gives the
table one row, so the model is evaluated once (with its current parameters)
and accumulated. -/
theorem c7_counterexample :
    (make_model_sources_image onesModel (ShapeOrBuffer.shape [1, 1])
        ([("junk", [0])] : Table ℤ) 1 demoInit).1
      ≠ (make_model_sources_image onesModel (ShapeOrBuffer.shape [1, 1])
        ([] : Table ℤ) 1 demoInit).1 := by
  decide

/-- Claim C7 (amended): for every source table that already has at least one
column (so the appended column cannot change the row count), appending a
column whose name matches no model parameter yields exactly the same result
(image outcome and final model state). -/
theorem c7_unmatched_column_ignored {α : Type} [Zero α] [Add α] (mo : PModel α)
    (s : List Nat) (t : Table α) (c : String) (vals : List α) (ov : ℚ)
    (ps0 : Params α) (ht : t ≠ []) (hcm : c ∉ mo.param_names) :
    make_model_sources_image mo (ShapeOrBuffer.shape s) (t ++ [(c, vals)]) ov ps0
      = make_model_sources_image mo (ShapeOrBuffer.shape s) t ov ps0 := by
  by_cases hs : s.length = 2
  · rw [make_model_shape2 mo s (t ++ [(c, vals)]) ov ps0 hs,
      make_model_shape2 mo s t ov ps0 hs]
    obtain ⟨col, rest, rfl⟩ := List.exists_cons_of_ne_nil ht
    have hcols := params_to_set_append_ne mo (col :: rest) c vals hcm
    have hnr : nrows ((col :: rest) ++ [(c, vals)]) = nrows (col :: rest) := rfl
    have htget : ∀ p ∈ params_to_set mo (col :: rest), ∀ i,
        tget ((col :: rest) ++ [(c, vals)]) p i = tget (col :: rest) p i := by
      intro p hp i
      have hpm : p ∈ mo.param_names := by
        simp only [params_to_set, List.mem_filter, decide_eq_true_eq] at hp
        exact hp.2
      have hpc : p ≠ c := fun hh => hcm (hh ▸ hpm)
      unfold tget
      rw [colvals_append_ne (col :: rest) c vals p hpc]
    simp only [make_model_core, hcols, hnr]
    rw [renderLoop_congr_table mo s (col :: rest) ((col :: rest) ++ [(c, vals)])
      (params_to_set mo (col :: rest)) ov htget]
  · simp [make_model_sources_image, hs]

/-- Claim C7 witness: the amended statement at a concrete two-column table. -/
theorem c7_witness :
    ((demoTable : Table ℤ) ≠ [] ∧ "junk" ∉ demoModel.param_names)
    ∧ make_model_sources_image demoModel (ShapeOrBuffer.shape [1, 1])
        (demoTable ++ [("junk", [9])]) 1 demoInit
      = make_model_sources_image demoModel (ShapeOrBuffer.shape [1, 1]) demoTable 1
        demoInit :=
  ⟨⟨by decide, by decide⟩,
    c7_unmatched_column_ignored demoModel [1, 1] demoTable "junk" [9] 1 demoInit
      (by decide) (by decide)⟩

/-- After deleting a column, the table no longer has it. -/
theorem hasCol_delCol_self {α : Type} (t : Table α) (c : String) :
    hasCol (delCol t c) c = false := by
  induction t with
  | nil => rfl
  | cons col rest ih =>
    by_cases hc : col.1 = c
    · simp [delCol, hc, ih]
    · simp [delCol, hasCol, hc, ih]

/-- Deleting one column does not change a differently-named column lookup. -/
theorem colvals_delCol_ne {α : Type} (t : Table α) (c p : String) (hp : p ≠ c) :
    colvals (delCol t c) p = colvals t p := by
  induction t with
  | nil => rfl
  | cons col rest ih =>
    by_cases hc : col.1 = c
    · simp [delCol, hc, colvals, ih, (show ¬ c = p from fun hh => hp hh.symm)]
    · simp [delCol, hc, colvals, ih]

/-- In-place column replacement: the replaced column reads back the new
values. -/
theorem colvals_mapReplace {α : Type} (c : String) (v : List α) :
    ∀ (t : Table α), hasCol t c = true → colvals (mapReplace t c v) c = v := by
  intro t
  induction t with
  | nil =>
    intro h
    exact absurd h (by simp [hasCol])
  | cons col rest ih =>
    intro h
    by_cases hc : col.1 = c
    · simp [mapReplace, hc, colvals]
    · have h2 : hasCol rest c = true := by simpa [hasCol, hc] using h
      simp [mapReplace, hc, colvals, ih h2]

/-- Appending a fresh column: the new column reads back the new values. -/
theorem colvals_append_self {α : Type} (t : Table α) (c : String) (v : List α)
    (h : hasCol t c = false) :
    colvals (t ++ [(c, v)]) c = v := by
  induction t with
  | nil => simp [colvals]
  | cons col rest ih =>
    have hc : ¬ col.1 = c := by
      intro hcc
      simp [hasCol, hcc] at h
    have h2 : hasCol rest c = false := by simpa [hasCol, hc] using h
    simp [colvals, hc, ih h2]

/-- `table[c] = v` reads back `v`, whether the column existed or not (so a
pre-existing column is overwritten). -/
theorem colvals_setCol_self {α : Type} (t : Table α) (c : String) (v : List α) :
    colvals (setCol t c v) c = v := by
  unfold setCol
  by_cases h : hasCol t c = true
  · rw [if_pos h]
    exact colvals_mapReplace c v t h
  · rw [if_neg h]
    exact colvals_append_self t c v (by simpa using h)

/-- Entry `i` of the converted amplitude column is that row's formula value. -/
theorem fluxToAmp_getD {α : Type} [Field α] (pi : α) (t : Table α) (i : Nat)
    (hi : i < (colvals t "flux").length) :
    (fluxToAmp pi t).getD i 0
      = tget t "flux" i / (2 * pi * tget t "x_stddev" i * tget t "y_stddev" i) := by
  unfold fluxToAmp
  rw [List.getD_eq_getElem?_getD, List.getElem?_map, List.getElem?_range hi]
  rfl

/-- Claim C6: a table with a flux column is normalized on a private copy: the
resulting table has no flux column, its amplitude column (overwriting any
pre-existing one) holds `flux / (2 pi x_stddev y_stddev)` computed per row
from that row's own stddev values, and the caller's table comes back from
`make_gaussian_sources_image` unchanged. -/
theorem c6_flux_normalization {α : Type} [Field α] (pi : α) (t : Table α)
    (hf : hasCol t "flux" = true) :
    ∃ t2, normalizeGaussTable pi t = Except.ok t2
      ∧ hasCol t2 "flux" = false
      ∧ (∀ i, i < (colvals t "flux").length →
          (colvals t2 "amplitude").getD i 0
            = tget t "flux" i / (2 * pi * tget t "x_stddev" i * tget t "y_stddev" i))
      ∧ (∀ gauss_eval gauss_disc shape ov,
          (make_gaussian_sources_image pi gauss_eval gauss_disc shape t ov).2 = t) := by
  refine ⟨delCol (setCol t "amplitude" (fluxToAmp pi t)) "flux", ?_, ?_, ?_, ?_⟩
  · unfold normalizeGaussTable
    rw [if_pos hf]
  · exact hasCol_delCol_self _ "flux"
  · intro i hi
    rw [colvals_delCol_ne _ "flux" "amplitude" (by decide), colvals_setCol_self]
    exact fluxToAmp_getD pi t i hi
  · intro gauss_eval gauss_disc shape ov
    unfold make_gaussian_sources_image
    cases normalizeGaussTable pi t <;> rfl

/-- Claim C6 witness: on a concrete table carrying flux 44, unit stddevs and a
pre-existing amplitude column, normalization removes flux and the amplitude
entry becomes 44 / (2 * (22/7)) = 7 (with pi instantiated at 22/7). -/
theorem c6_witness :
    hasCol gaussDemoTable "flux" = true
    ∧ hasCol (delCol (setCol gaussDemoTable "amplitude"
        (fluxToAmp (22 / 7 : ℚ) gaussDemoTable)) "flux") "flux" = false
    ∧ (colvals (delCol (setCol gaussDemoTable "amplitude"
        (fluxToAmp (22 / 7 : ℚ) gaussDemoTable)) "flux") "amplitude").getD 0 0 = 7 := by
  obtain ⟨t2, h1, h2, h3, _⟩ := c6_flux_normalization (22 / 7 : ℚ) gaussDemoTable
    (by decide)
  have hnorm : normalizeGaussTable (22 / 7 : ℚ) gaussDemoTable
      = Except.ok (delCol (setCol gaussDemoTable "amplitude"
        (fluxToAmp (22 / 7 : ℚ) gaussDemoTable)) "flux") := by
    unfold normalizeGaussTable
    rw [if_pos (by decide : hasCol gaussDemoTable "flux" = true)]
  rw [hnorm] at h1
  have ht2 := Except.ok.inj h1
  subst ht2
  refine ⟨by decide, h2, ?_⟩
  rw [h3 0 (by decide)]
  show (44 : ℚ) / (2 * (22 / 7) * 1 * 1) = 7
  norm_num

end Photutils
